import Mathlib

/-!
Verification of the auto-trade order engine (Django app `trading`).

This file gives a shallow embedding of the parts of the program that the
verified properties speak about:

* the data model (`trading/models.py`): `Order`, `Account`, `Broker`,
  `Holding`, `DailyRealizedProfit`, with `Decimal` fields modelled as `ℚ`,
  nullable fields as `Option`, and timestamps as `ℕ`;
* the profit calculator (`trading/profit_calculator.py`);
* the order dispatcher and fill reconciler (`trading/tasks.py`);
* the broker clients (`trading/clients.py`), with the network modelled as an
  explicit environment of responses and an explicit trace of outbound calls.

Databases are modelled as lists of rows; a Django queryset filter becomes a
`List.filter`, `order_by` a stable sort, `update_or_create` an explicit
upsert.  A Python exception that a claim cares about is modelled with
`Except`/`Option`.
-/

namespace AutoTrade

/-- Order side (models.py `OrderSide`). -/
inductive OrderSide where
  | BUY
  | SELL
deriving DecidableEq, Repr

/-- Order type (models.py `OrderType`). -/
inductive OrderType where
  | MARKET
  | LIMIT
deriving DecidableEq, Repr

/-- Order status (models.py `OrderStatus`). -/
inductive OrderStatus where
  | PENDING
  | PARTIALLY_FILLED
  | FILLED
  | CANCELLED
  | REJECTED
deriving DecidableEq, Repr

/-- One row of the `Order` table (models.py 280-368).  `account` and `symbol`
are the foreign keys, kept as ids.  `filled_quantity` has database default 0
and is not nullable; `price`, `average_filled_price`, `external_order_id` and
`filled_at` are nullable. -/
structure Order where
  account : Nat
  symbol : Nat
  side : OrderSide
  order_type : OrderType
  quantity : ℚ
  price : Option ℚ
  status : OrderStatus
  filled_quantity : ℚ
  average_filled_price : Option ℚ
  external_order_id : Option String
  filled_at : Option Nat
deriving DecidableEq, Repr

/-- `Order.save` (models.py 361-368).  A LIMIT order whose `price` is falsy
(None or 0) raises `ValueError`; a FILLED order with no `filled_at` gets
`filled_at` set to the current time.  The raise is modelled as `Except.error`. -/
def Order.save (now : Nat) (o : Order) : Except Unit Order :=
  if o.order_type = OrderType.LIMIT ∧ (o.price = none ∨ o.price = some 0) then
    Except.error ()
  else
    Except.ok
      (if o.status = OrderStatus.FILLED ∧ o.filled_at = none then
        { o with filled_at := some now }
      else o)

/-! ## Profit calculator (`trading/profit_calculator.py`) -/

/-- The buy-side query of `calculate_realized_profit_for_order`
(profit_calculator.py 41-47): FILLED BUY orders of the same account and
symbol with `filled_at` strictly before the sell's, ordered ascending by
`filled_at` (a row whose `filled_at` is NULL never satisfies the `__lt`
lookup). -/
def buyOrdersBefore (db : List Order) (account symbol : Nat) (sellT : Nat) :
    List Order :=
  List.insertionSort (fun a b => a.filled_at.getD 0 ≤ b.filled_at.getD 0)
    (db.filter fun o =>
      decide (o.account = account) && decide (o.symbol = symbol) &&
        decide (o.side = OrderSide.BUY) && decide (o.status = OrderStatus.FILLED) &&
        match o.filled_at with
        | some t => decide (t < sellT)
        | none => false)

/-- The FIFO loop of `calculate_realized_profit_for_order`
(profit_calculator.py 49-71): walk the buys accumulating matched cost until
the remaining sell quantity is exhausted.  `none` models the exception raised
by `Decimal(str(None))` when a walked buy has a NULL
`average_filled_price`. -/
def fifoWalk : List Order → ℚ → ℚ → Option ℚ
  | [], _, total_cost => some total_cost
  | buy_order :: rest, remaining, total_cost =>
    if remaining ≤ 0 then some total_cost
    else
      match buy_order.average_filled_price with
      | none => none
      | some buy_price =>
        if remaining ≥ buy_order.filled_quantity then
          fifoWalk rest (remaining - buy_order.filled_quantity)
            (total_cost + buy_order.filled_quantity * buy_price)
        else
          some (total_cost + remaining * buy_price)

/-- `ProfitCalculator.calculate_realized_profit_for_order`
(profit_calculator.py 19-77).  Returns `none` where the Python raises: a NULL
`filled_at` on the sell (the `filled_at__lt=None` lookup raises) or a NULL
price on a walked buy.  The early guards (lines 29-33) return 0 before the
buy query runs. -/
def calculate_realized_profit_for_order (db : List Order) (sell_order : Order) :
    Option ℚ :=
  if sell_order.side ≠ OrderSide.SELL ∨ sell_order.status ≠ OrderStatus.FILLED then
    some 0
  else if sell_order.filled_quantity = 0 ∨ sell_order.average_filled_price = none ∨
      sell_order.average_filled_price = some 0 then
    some 0
  else
    match sell_order.filled_at with
    | none => none
    | some sellT =>
      -- the guard above ensures average_filled_price is a nonzero some
      let sell_price := sell_order.average_filled_price.getD 0
      let buys := buyOrdersBefore db sell_order.account sell_order.symbol sellT
      (fifoWalk buys sell_order.filled_quantity 0).map fun total_cost =>
        sell_order.filled_quantity * sell_price - total_cost

/-- The buy lots a sell is matched against: (filled quantity, buy average
filled price) per buy order, oldest first. -/
def lotsOf (buys : List Order) : List (ℚ × ℚ) :=
  buys.map fun b => (b.filled_quantity, b.average_filled_price.getD 0)

/-- FIFO matched cost as the specification words it: consume from each lot,
oldest first, `consumed = min remaining lotQty`, until the sell quantity is
fully matched or lots are exhausted; cost is `Σ consumed × lot price`. -/
def specMatchedCost : List (ℚ × ℚ) → ℚ → ℚ
  | [], _ => 0
  | lot :: rest, remaining =>
    let consumed := min remaining lot.1
    consumed * lot.2 + specMatchedCost rest (remaining - consumed)

lemma specMatchedCost_zero (lots : List (ℚ × ℚ)) (hq : ∀ l ∈ lots, 0 ≤ l.1) :
    specMatchedCost lots 0 = 0 := by
  induction lots with
  | nil => rfl
  | cons l rest ih =>
    have hl : 0 ≤ l.1 := hq l (List.mem_cons_self l rest)
    have : min (0 : ℚ) l.1 = 0 := min_eq_left hl
    simp only [specMatchedCost, this, zero_mul, sub_zero, zero_add]
    exact ih fun x hx => hq x (List.mem_cons_of_mem l hx)

lemma fifoWalk_eq_specMatchedCost (buys : List Order) (remaining acc : ℚ)
    (hrem : 0 ≤ remaining)
    (hq : ∀ b ∈ buys, 0 ≤ b.filled_quantity)
    (hp : ∀ b ∈ buys, b.average_filled_price ≠ none) :
    fifoWalk buys remaining acc =
      some (acc + specMatchedCost (lotsOf buys) remaining) := by
  induction buys generalizing remaining acc with
  | nil => simp [fifoWalk, specMatchedCost, lotsOf]
  | cons b rest ih =>
    have hbq : 0 ≤ b.filled_quantity := hq b (List.mem_cons_self b rest)
    have hq' : ∀ x ∈ rest, 0 ≤ x.filled_quantity :=
      fun x hx => hq x (List.mem_cons_of_mem b hx)
    have hp' : ∀ x ∈ rest, x.average_filled_price ≠ none :=
      fun x hx => hp x (List.mem_cons_of_mem b hx)
    have hqrest : ∀ l ∈ lotsOf rest, 0 ≤ l.1 := by
      intro l hl
      simp only [lotsOf, List.mem_map] at hl
      obtain ⟨x, hx, rfl⟩ := hl
      exact hq' x hx
    obtain ⟨bp, hbp'⟩ : ∃ p, b.average_filled_price = some p := by
      cases hcase : b.average_filled_price with
      | none => exact absurd hcase (hp b (List.mem_cons_self b rest))
      | some p => exact ⟨p, rfl⟩
    rw [show lotsOf (b :: rest) = (b.filled_quantity, bp) :: lotsOf rest from by
      simp [lotsOf, hbp']]
    by_cases hz : remaining ≤ 0
    · have hr0 : remaining = 0 := le_antisymm hz hrem
      subst hr0
      rw [show fifoWalk (b :: rest) 0 acc = some acc from by simp [fifoWalk]]
      have hmin : min (0 : ℚ) b.filled_quantity = 0 := min_eq_left hbq
      simp only [specMatchedCost, hmin, zero_mul, sub_zero, zero_add,
        specMatchedCost_zero (lotsOf rest) hqrest, add_zero]
    · push_neg at hz
      by_cases hge : remaining ≥ b.filled_quantity
      · have hmin : min remaining b.filled_quantity = b.filled_quantity :=
          min_eq_right hge
        have hrem' : 0 ≤ remaining - b.filled_quantity := by linarith
        rw [show fifoWalk (b :: rest) remaining acc =
            fifoWalk rest (remaining - b.filled_quantity)
              (acc + b.filled_quantity * bp) from by
          simp [fifoWalk, hbp', hz.not_le, hge]]
        rw [ih _ _ hrem' hq' hp']
        simp only [specMatchedCost, hmin, Option.some.injEq]
        ring
      · push_neg at hge
        have hmin : min remaining b.filled_quantity = remaining :=
          min_eq_left (le_of_lt hge)
        rw [show fifoWalk (b :: rest) remaining acc =
            some (acc + remaining * bp) from by
          simp [fifoWalk, hbp', hz.not_le, not_le.mpr hge]]
        simp only [specMatchedCost, hmin, sub_self,
          specMatchedCost_zero (lotsOf rest) hqrest, add_zero, Option.some.injEq]

/-- C1: for a FILLED SELL order with known positive filled quantity and
average filled price, `calculate_realized_profit_for_order` returns
sell quantity × sell price minus the FIFO-matched cost over the account and
symbol's FILLED BUY orders filled strictly before the sell, oldest first
(each buy consumed up to its full filled quantity until the sell quantity is
matched or buys are exhausted). -/
theorem calculate_realized_profit_fifo (db : List Order) (sell_order : Order)
    (sp : ℚ) (t : Nat)
    (hside : sell_order.side = OrderSide.SELL)
    (hstatus : sell_order.status = OrderStatus.FILLED)
    (hqty : 0 < sell_order.filled_quantity)
    (hprice : sell_order.average_filled_price = some sp)
    (hsp : sp ≠ 0)
    (hat : sell_order.filled_at = some t)
    (hbuys : ∀ b ∈ buyOrdersBefore db sell_order.account sell_order.symbol t,
      0 ≤ b.filled_quantity ∧ b.average_filled_price ≠ none) :
    calculate_realized_profit_for_order db sell_order =
      some (sell_order.filled_quantity * sp -
        specMatchedCost
          (lotsOf (buyOrdersBefore db sell_order.account sell_order.symbol t))
          sell_order.filled_quantity) := by
  have hg1 : ¬(sell_order.side ≠ OrderSide.SELL ∨
      sell_order.status ≠ OrderStatus.FILLED) := by
    push_neg; exact ⟨hside, hstatus⟩
  have hg2 : ¬(sell_order.filled_quantity = 0 ∨
      sell_order.average_filled_price = none ∨
      sell_order.average_filled_price = some 0) := by
    push_neg
    refine ⟨ne_of_gt hqty, ?_, ?_⟩
    · rw [hprice]; simp
    · rw [hprice]; simp [hsp]
  unfold calculate_realized_profit_for_order
  rw [if_neg hg1, if_neg hg2]
  simp only [hat, hprice, Option.getD_some]
  rw [fifoWalk_eq_specMatchedCost _ _ _ (le_of_lt hqty)
    (fun b hb => (hbuys b hb).1) (fun b hb => (hbuys b hb).2)]
  simp

/-- C10: `calculate_realized_profit_for_order` is total and returns 0,
touching no buy history (the database is arbitrary), for any order outside
its precondition: side not SELL, status not FILLED, or a missing/zero filled
quantity or average filled price. -/
theorem calculate_realized_profit_guard (db : List Order) (sell_order : Order)
    (h : sell_order.side ≠ OrderSide.SELL ∨ sell_order.status ≠ OrderStatus.FILLED ∨
      sell_order.filled_quantity = 0 ∨ sell_order.average_filled_price = none ∨
      sell_order.average_filled_price = some 0) :
    calculate_realized_profit_for_order db sell_order = some 0 := by
  unfold calculate_realized_profit_for_order
  rcases h with h | h | h | h | h
  · rw [if_pos (Or.inl h)]
  · rw [if_pos (Or.inr h)]
  all_goals
    by_cases hguard : sell_order.side ≠ OrderSide.SELL ∨
        sell_order.status ≠ OrderStatus.FILLED
    · rw [if_pos hguard]
    · rw [if_neg hguard]
      first
      | rw [if_pos (Or.inl h)]
      | rw [if_pos (Or.inr (Or.inl h))]
      | rw [if_pos (Or.inr (Or.inr h))]

/-! Concrete rows used by the witnesses: the specification's two-lot example,
BUY 5@100 then BUY 5@120, both filled before SELL 10@150. -/

/-- Witness data: a FILLED BUY of 5 units at average price 100, filled at
time 1. -/
def exBuy1 : Order :=
  { account := 1, symbol := 1, side := OrderSide.BUY, order_type := OrderType.LIMIT,
    quantity := 5, price := some 100, status := OrderStatus.FILLED,
    filled_quantity := 5, average_filled_price := some 100,
    external_order_id := none, filled_at := some 1 }

/-- Witness data: a FILLED BUY of 5 units at average price 120, filled at
time 2. -/
def exBuy2 : Order :=
  { exBuy1 with
    price := some 120
    average_filled_price := some 120
    filled_at := some 2 }

/-- Witness data: a FILLED SELL of 10 units at average price 150, filled at
time 3. -/
def exSell : Order :=
  { account := 1, symbol := 1, side := OrderSide.SELL, order_type := OrderType.LIMIT,
    quantity := 10, price := some 150, status := OrderStatus.FILLED,
    filled_quantity := 10, average_filled_price := some 150,
    external_order_id := none, filled_at := some 3 }

/-- Witness data: the order table holding the two buys and the sell. -/
def exDb : List Order := [exSell, exBuy2, exBuy1]

/-- Witness for C1 at the specification's example: buys 5@100 and 5@120
before a sell of 10@150 give realized profit 1500 − 1100 = 400. -/
theorem calculate_realized_profit_fifo_witness :
    calculate_realized_profit_for_order exDb exSell = some 400 := by
  have h := calculate_realized_profit_fifo exDb exSell 150 3 rfl rfl
    (by norm_num [exSell]) rfl (by norm_num) rfl ?_
  · rw [h]
    norm_num [buyOrdersBefore, exDb, exSell, exBuy1, exBuy2, List.insertionSort,
      List.orderedInsert, lotsOf, specMatchedCost]
  · intro b hb
    simp [buyOrdersBefore, exDb, exSell, exBuy1, exBuy2, List.insertionSort,
      List.orderedInsert] at hb
    rcases hb with rfl | rfl <;> simp [exBuy1, exBuy2]

/-- Witness for C10: a BUY order (outside the precondition) evaluates to
profit 0 on the concrete order table. -/
theorem calculate_realized_profit_guard_witness :
    calculate_realized_profit_for_order exDb exBuy1 = some 0 :=
  calculate_realized_profit_guard exDb exBuy1 (Or.inl (by simp [exBuy1]))

/-! ## Daily realized profit (`trading/profit_calculator.py` 80-157) -/

/-- One row of the `DailyRealizedProfit` table (models.py 371-415), unique on
(account, date). -/
structure DailyRealizedProfit where
  account : Nat
  date : Nat
  realized_profit : ℚ
  realized_profit_rate : ℚ
  total_buy_amount : ℚ
  total_sell_amount : ℚ
deriving DecidableEq, Repr

/-- The result dictionary of `calculate_daily_realized_profit`. -/
structure ProfitData where
  realized_profit : ℚ
  total_buy_amount : ℚ
  total_sell_amount : ℚ
  realized_profit_rate : ℚ
deriving DecidableEq, Repr

/-- Timestamps are seconds; a calendar date `d` covers
`[d * 86400, (d+1) * 86400)`. -/
def dayStart (d : Nat) : Nat := d * 86400

/-- The sell-side query of `calculate_daily_realized_profit`
(profit_calculator.py 100-106): the account's FILLED SELL orders with
`filled_at` within the target date. -/
def sellOrdersOn (db : List Order) (account target_date : Nat) : List Order :=
  db.filter fun o =>
    decide (o.account = account) && decide (o.side = OrderSide.SELL) &&
      decide (o.status = OrderStatus.FILLED) &&
      match o.filled_at with
      | some t => decide (dayStart target_date ≤ t) &&
          decide (t < dayStart (target_date + 1))
      | none => false

/-- The accumulation loop of `calculate_daily_realized_profit`
(profit_calculator.py 112-120): over the day's sells, total realized profit
and total sell amount (the latter only when filled quantity and average
filled price are truthy). -/
def dailyTotals (db : List Order) : List Order → ℚ → ℚ → Option (ℚ × ℚ)
  | [], profit, sellAmt => some (profit, sellAmt)
  | s :: rest, profit, sellAmt =>
    match calculate_realized_profit_for_order db s with
    | none => none
    | some p =>
      let amt :=
        if s.filled_quantity ≠ 0 ∧ s.average_filled_price ≠ none ∧
            s.average_filled_price ≠ some 0 then
          s.filled_quantity * s.average_filled_price.getD 0
        else 0
      dailyTotals db rest (profit + p) (sellAmt + amt)

/-- `ProfitCalculator.calculate_daily_realized_profit`
(profit_calculator.py 80-132).  `total_buy_amount` is never accumulated and
stays 0; the rate is profit / total sell amount × 100, or 0 with no sells. -/
def calculate_daily_realized_profit (db : List Order) (account target_date : Nat) :
    Option ProfitData :=
  match dailyTotals db (sellOrdersOn db account target_date) 0 0 with
  | none => none
  | some (profit, sellAmt) =>
    some { realized_profit := profit, total_buy_amount := 0,
           total_sell_amount := sellAmt,
           realized_profit_rate :=
             if 0 < sellAmt then profit / sellAmt * 100 else 0 }

/-- The (account, date) key predicate of the daily-profit upsert. -/
def dailyKey (account target_date : Nat) (r : DailyRealizedProfit) : Bool :=
  decide (r.account = account) && decide (r.date = target_date)

/-- Number of rows of the daily-profit table carrying a given key. -/
def countKey (table : List DailyRealizedProfit) (account target_date : Nat) : Nat :=
  (table.filter (dailyKey account target_date)).length

/-- `DailyRealizedProfit.objects.update_or_create` keyed on (account, date)
(profit_calculator.py 141-150): overwrite the defaults of the existing row,
or insert a new row. -/
def upsertDailyProfit (table : List DailyRealizedProfit)
    (row : DailyRealizedProfit) : List DailyRealizedProfit :=
  if table.any (dailyKey row.account row.date) then
    table.map fun r => if dailyKey row.account row.date r then row else r
  else table ++ [row]

/-- `ProfitCalculator.update_daily_realized_profit`
(profit_calculator.py 134-157). -/
def update_daily_realized_profit (db : List Order)
    (table : List DailyRealizedProfit) (account target_date : Nat) :
    Option (List DailyRealizedProfit) :=
  (calculate_daily_realized_profit db account target_date).map fun pd =>
    upsertDailyProfit table
      { account := account, date := target_date,
        realized_profit := pd.realized_profit,
        realized_profit_rate := pd.realized_profit_rate,
        total_buy_amount := pd.total_buy_amount,
        total_sell_amount := pd.total_sell_amount }

lemma upsertDailyProfit_key_all (table : List DailyRealizedProfit)
    (row : DailyRealizedProfit) :
    ∀ r ∈ upsertDailyProfit table row,
      dailyKey row.account row.date r = true → r = row := by
  intro r hr hkey
  unfold upsertDailyProfit at hr
  by_cases hany : table.any (dailyKey row.account row.date) = true
  · rw [if_pos hany] at hr
    obtain ⟨x, _, hx⟩ := List.mem_map.mp hr
    by_cases hk : dailyKey row.account row.date x = true
    · rw [if_pos hk] at hx; exact hx.symm
    · rw [if_neg hk] at hx; subst hx; exact absurd hkey hk
  · rw [if_neg hany] at hr
    rcases List.mem_append.mp hr with hmem | hmem
    · exact absurd hkey (by
        intro hcontra
        exact hany (List.any_eq_true.mpr ⟨r, hmem, hcontra⟩))
    · simpa using hmem

lemma filter_map_upsert (table : List DailyRealizedProfit)
    (row : DailyRealizedProfit) (hkey : dailyKey row.account row.date row = true) :
    countKey (table.map fun r => if dailyKey row.account row.date r then row else r)
        row.account row.date =
      countKey table row.account row.date := by
  induction table with
  | nil => rfl
  | cons x rest ih =>
    have ih' : (List.filter (dailyKey row.account row.date)
          (rest.map fun r => if dailyKey row.account row.date r then row else r)).length =
        (List.filter (dailyKey row.account row.date) rest).length := ih
    simp only [countKey, List.map_cons]
    by_cases hk : dailyKey row.account row.date x = true
    · rw [if_pos hk, List.filter_cons, List.filter_cons, if_pos hkey, if_pos hk]
      simp only [List.length_cons, ih']
    · rw [if_neg hk, List.filter_cons, List.filter_cons, if_neg hk, if_neg hk]
      exact ih'

lemma map_key_self (table : List DailyRealizedProfit) (row : DailyRealizedProfit)
    (hall : ∀ r ∈ table, dailyKey row.account row.date r = true → r = row) :
    (table.map fun r => if dailyKey row.account row.date r then row else r) =
      table := by
  induction table with
  | nil => rfl
  | cons x rest ih =>
    have hx : (if dailyKey row.account row.date x then row else x) = x := by
      by_cases hk : dailyKey row.account row.date x = true
      · rw [if_pos hk, (hall x (List.mem_cons_self x rest) hk)]
      · rw [if_neg hk]
    simp only [List.map_cons, hx]
    rw [ih fun r hr => hall r (List.mem_cons_of_mem x hr)]

lemma countKey_upsertDailyProfit (table : List DailyRealizedProfit)
    (row : DailyRealizedProfit)
    (hkey : dailyKey row.account row.date row = true)
    (huniq : countKey table row.account row.date ≤ 1) :
    countKey (upsertDailyProfit table row) row.account row.date = 1 := by
  unfold upsertDailyProfit
  by_cases hany : table.any (dailyKey row.account row.date) = true
  · rw [if_pos hany, filter_map_upsert table row hkey]
    obtain ⟨x, hmem, hx⟩ := List.any_eq_true.mp hany
    have hpos : 0 < countKey table row.account row.date := by
      have hmem' : x ∈ table.filter (dailyKey row.account row.date) :=
        List.mem_filter.mpr ⟨hmem, hx⟩
      exact List.length_pos.mpr fun hnil => by
        rw [hnil] at hmem'; exact absurd hmem' (List.not_mem_nil x)
    omega
  · rw [if_neg hany]
    simp only [countKey, List.filter_append, List.length_append,
      List.filter_cons, hkey]
    have hzero : (table.filter (dailyKey row.account row.date)).length = 0 := by
      rw [List.length_eq_zero, List.filter_eq_nil_iff]
      intro a ha
      intro hcontra
      exact hany (List.any_eq_true.mpr ⟨a, ha, hcontra⟩)
    simp [hzero]

/-- C6: `update_daily_realized_profit` is idempotent per (account, date):
with the order table unchanged, a second run stores the same single row and
changes nothing (it fully overwrites rather than accumulating or
duplicating). -/
theorem update_daily_realized_profit_idempotent (db : List Order)
    (table : List DailyRealizedProfit) (account target_date : Nat)
    (t₁ : List DailyRealizedProfit)
    (huniq : countKey table account target_date ≤ 1)
    (h : update_daily_realized_profit db table account target_date = some t₁) :
    update_daily_realized_profit db t₁ account target_date = some t₁ ∧
      countKey t₁ account target_date = 1 := by
  unfold update_daily_realized_profit at h ⊢
  cases hcalc : calculate_daily_realized_profit db account target_date with
  | none => rw [hcalc] at h; exact absurd h (by simp)
  | some pd =>
    rw [hcalc] at h
    simp only [Option.map_some'] at h
    set row : DailyRealizedProfit :=
      { account := account, date := target_date,
        realized_profit := pd.realized_profit,
        realized_profit_rate := pd.realized_profit_rate,
        total_buy_amount := pd.total_buy_amount,
        total_sell_amount := pd.total_sell_amount } with hrow
    have hkeyrow : dailyKey row.account row.date row = true := by
      simp [dailyKey, hrow]
    have h' : upsertDailyProfit table row = t₁ := Option.some.inj h
    have hra : row.account = account := rfl
    have hrd : row.date = target_date := rfl
    have hcount : countKey t₁ account target_date = 1 := by
      rw [← h', ← hra, ← hrd]
      exact countKey_upsertDailyProfit table row hkeyrow (hra ▸ hrd ▸ huniq)
    refine ⟨?_, hcount⟩
    rw [Option.map_some']
    congr 1
    have hany : t₁.any (dailyKey row.account row.date) = true := by
      have hne : t₁.filter (dailyKey row.account row.date) ≠ [] := by
        intro hnil
        have := hcount
        rw [countKey, ← hra, ← hrd, hnil] at this
        exact absurd this (by simp)
      obtain ⟨x, hx⟩ := List.exists_mem_of_ne_nil _ hne
      exact List.any_eq_true.mpr ⟨x, (List.mem_filter.mp hx).1,
        (List.mem_filter.mp hx).2⟩
    have hall : ∀ r ∈ t₁, dailyKey row.account row.date r = true → r = row := by
      rw [← h']
      exact upsertDailyProfit_key_all table row
    unfold upsertDailyProfit
    rw [if_pos hany]
    exact map_key_self t₁ row hall

/-- Witness data: the daily-profit row produced for account 1 on date 0 by
the concrete order table `exDb` (profit 400 over sell turnover 1500). -/
def exDailyRow : DailyRealizedProfit :=
  { account := 1, date := 0, realized_profit := 400,
    realized_profit_rate := 80 / 3, total_buy_amount := 0,
    total_sell_amount := 1500 }

/-! ## Brokers, accounts and clients (`trading/models.py`, `trading/clients.py`) -/

/-- Broker reference data (models.py 25-52). -/
structure Broker where
  code : String
  name : String
  is_crypto_exchange : Bool
deriving DecidableEq, Repr

/-- The `Account` fields the dispatcher, clients and reconciler read
(models.py 84-256): credentials, OAuth token cache, and trading policy. -/
structure Account where
  id : Nat
  broker : Broker
  account_number : Option String
  api_key : Option String
  api_secret : Option String
  access_token : Option String
  token_expires_at : Option Nat
  buy_enabled : Bool
  sell_enabled : Bool
  investment_limit : Option ℚ
deriving DecidableEq, Repr

/-- Python truthiness of a nullable string field: `None` and the empty
string are falsy. -/
def strTruthy : Option String → Bool
  | none => false
  | some s => !(s == "")

/-- Python `str.lower`, modelled characterwise. -/
def pyLower (s : String) : String := String.mk (s.data.map Char.toLower)

/-- Python `str.upper`, modelled characterwise. -/
def pyUpper (s : String) : String := String.mk (s.data.map Char.toUpper)

/-- Whether `needle` is a prefix of `haystack` (characterwise). -/
def listHasPrefix : List Char → List Char → Bool
  | [], _ => true
  | _ :: _, [] => false
  | c :: cs, d :: ds => c == d && listHasPrefix cs ds

/-- Substring search over character lists. -/
def strContainsAux (needle : List Char) : List Char → Bool
  | [] => listHasPrefix needle []
  | c :: rest => listHasPrefix needle (c :: rest) || strContainsAux needle rest

/-- Python `needle in haystack` on strings. -/
def strContains (haystack needle : String) : Bool :=
  strContainsAux needle.data haystack.data

/-- The three broker client classes of clients.py. -/
inductive BrokerClient where
  | upbit
  | bingx
  | kis
deriving DecidableEq, Repr

/-- `get_broker_client` (clients.py 924-943) together with each client
constructor's credential validation (clients.py 59-65, 221-227, 479-490):
dispatch on `(is_crypto_exchange, code.upper())`; a missing credential or an
unsupported code raises `ValueError`, modelled as `Except.error`. -/
def get_broker_client (account : Account) : Except Unit BrokerClient :=
  let broker := account.broker
  let broker_code := pyUpper broker.code
  if broker.is_crypto_exchange = true then
    if broker_code = "UPBIT" then
      if strTruthy account.api_key = false ∨ strTruthy account.api_secret = false then
        Except.error ()
      else Except.ok BrokerClient.upbit
    else if broker_code = "BINGX" then
      if strTruthy account.api_key = false ∨ strTruthy account.api_secret = false then
        Except.error ()
      else Except.ok BrokerClient.bingx
    else Except.error ()
  else
    if broker_code = "KIS" then
      if strTruthy account.api_key = false ∨ strTruthy account.api_secret = false then
        Except.error ()
      else if strTruthy account.account_number = false then Except.error ()
      else Except.ok BrokerClient.kis
    else Except.error ()

/-! ## Fill reconciler (`trading/tasks.py` `check_order_status`, 102-171) -/

/-- The parsed Upbit order payload read by `check_order_status`
(tasks.py 122-126): `state`, `executed_volume`, `avg_price`, `uuid`. -/
structure UpbitData where
  state : Option String
  executed_volume : ℚ
  avg_price : ℚ
  uuid : Option String
deriving DecidableEq, Repr

/-- A client's `get_order_status` response: `success`, and the payload when
it is a dict (`none` models a non-dict `data`). -/
structure StatusResult where
  success : Bool
  data : Option UpbitData
deriving DecidableEq, Repr

/-- The stored row after an `order.save()` whose exception, if any, is
caught by the enclosing `try`: on success the saved row, on a raise the
previous stored row. -/
def saveOr (fallback : Order) : Except Unit Order → Order
  | Except.ok o => o
  | Except.error _ => fallback

/-- The body of `check_order_status` under a successful status query
(tasks.py 114-168): the Upbit branch maps the payload onto the order —
`state == 'done'` ⇒ FILLED (with quantities, price if positive, and
`filled_at := now`), `state == 'cancel'` ⇒ CANCELLED, positive
`executed_volume` ⇒ PARTIALLY_FILLED — and any other broker's branch
(lines 159-165) changes nothing; then `order.save()`.  The returned flag
records whether `ProfitCalculator.update_daily_realized_profit` was invoked
(lines 140-149: exactly on `state == 'done'` with the prior status not
FILLED and side SELL, before the save). -/
def applyOrderStatus (broker : Broker) (order : Order) (result : StatusResult)
    (now : Nat) : Order × Bool :=
  if result.success = true then
    if broker.is_crypto_exchange = true ∧
        strContains (pyLower broker.name) "upbit" = true then
      match result.data with
      | none => (saveOr order (Order.save now order), false)
      | some data =>
        let order₁ :=
          if strTruthy data.uuid = true ∧ strTruthy order.external_order_id = false then
            { order with external_order_id := data.uuid }
          else order
        if data.state = some "done" then
          let was_filled := decide (order.status = OrderStatus.FILLED)
          let order₂ := { order₁ with
            status := OrderStatus.FILLED,
            filled_quantity := data.executed_volume,
            average_filled_price :=
              if 0 < data.avg_price then some data.avg_price else none,
            filled_at := some now }
          (saveOr order (Order.save now order₂),
            !was_filled && decide (order.side = OrderSide.SELL))
        else if data.state = some "cancel" then
          (saveOr order (Order.save now { order₁ with status := OrderStatus.CANCELLED }),
            false)
        else if 0 < data.executed_volume then
          (saveOr order (Order.save now { order₁ with
            status := OrderStatus.PARTIALLY_FILLED,
            filled_quantity := data.executed_volume,
            average_filled_price :=
              if 0 < data.avg_price then some data.avg_price else none }),
            false)
        else (saveOr order (Order.save now order₁), false)
    else (saveOr order (Order.save now order), false)
  else (order, false)

/-- `check_order_status` (tasks.py 102-171).  `clientGiven` is whether a
client was passed in; otherwise one is resolved and a resolution failure
returns with no mutation.  `result` is the client's `get_order_status`
response; a query failure (or exception) also leaves the order untouched.
Returns the stored order and whether the profit calculator was triggered. -/
def check_order_status (account : Account) (order : Order) (clientGiven : Bool)
    (result : StatusResult) (now : Nat) : Order × Bool :=
  if clientGiven = true then applyOrderStatus account.broker order result now
  else
    match get_broker_client account with
    | Except.error _ => (order, false)
    | Except.ok _ => applyOrderStatus account.broker order result now

/-- A valid stored order: `Order.save` enforces at creation that a LIMIT
order carries a truthy price, so no persisted row violates it. -/
def validOrder (o : Order) : Prop :=
  ¬(o.order_type = OrderType.LIMIT ∧ (o.price = none ∨ o.price = some 0))

lemma save_ok_status (now : Nat) (o fallback : Order) (h : validOrder o) :
    (saveOr fallback (Order.save now o)).status = o.status := by
  unfold Order.save
  rw [if_neg h]
  show (if o.status = OrderStatus.FILLED ∧ o.filled_at = none then
      { o with filled_at := some now } else o).status = o.status
  split <;> rfl

/-- C2 amendment helper: over the payload-application body, the new status
is a function of the payload alone. -/
lemma applyOrderStatus_status (broker : Broker) (order : Order)
    (result : StatusResult) (data : UpbitData) (now : Nat)
    (hbroker : broker.is_crypto_exchange = true)
    (hname : strContains (pyLower broker.name) "upbit" = true)
    (hsuccess : result.success = true)
    (hdata : result.data = some data)
    (hsave : validOrder order) :
    (applyOrderStatus broker order result now).1.status =
      (if data.state = some "done" then OrderStatus.FILLED
       else if data.state = some "cancel" then OrderStatus.CANCELLED
       else if 0 < data.executed_volume then OrderStatus.PARTIALLY_FILLED
       else order.status) := by
  have hcond : broker.is_crypto_exchange = true ∧
      strContains (pyLower broker.name) "upbit" = true := ⟨hbroker, hname⟩
  unfold applyOrderStatus
  rw [if_pos hsuccess, if_pos hcond, hdata]
  simp only []
  split_ifs <;>
    first
    | rfl
    | rw [save_ok_status now _ _ (by simpa [validOrder] using hsave)]

lemma applyOrderStatus_trigger_iff (broker : Broker) (order : Order)
    (result : StatusResult) (now : Nat) (hsave : validOrder order) :
    ((applyOrderStatus broker order result now).2 = true) ↔
      ((applyOrderStatus broker order result now).1.status = OrderStatus.FILLED ∧
        order.status ≠ OrderStatus.FILLED ∧ order.side = OrderSide.SELL) := by
  unfold applyOrderStatus
  by_cases hsucc : result.success = true
  · rw [if_pos hsucc]
    by_cases hcond : broker.is_crypto_exchange = true ∧
        strContains (pyLower broker.name) "upbit" = true
    · rw [if_pos hcond]
      cases hdata : result.data with
      | none =>
        rw [show (saveOr order (Order.save now order), false).2 = false from rfl]
        rw [show (saveOr order (Order.save now order), false).1 =
          saveOr order (Order.save now order) from rfl]
        rw [save_ok_status now _ _ hsave]
        simp only [Bool.false_eq_true, false_iff]
        tauto
      | some data =>
        have hA : ∀ st fq afp eid fat,
            (saveOr order (Order.save now
              { account := order.account, symbol := order.symbol, side := order.side,
                order_type := order.order_type, quantity := order.quantity,
                price := order.price, status := st, filled_quantity := fq,
                average_filled_price := afp, external_order_id := eid,
                filled_at := fat })).status = st := by
          intro st fq afp eid fat
          rw [save_ok_status now _ _ (by simpa [validOrder] using hsave)]
        simp only []
        split_ifs <;>
          simp only [hA, save_ok_status now order order hsave] <;>
          (try simp) <;> (try tauto)
    · rw [if_neg hcond]
      rw [show (saveOr order (Order.save now order), false).2 = false from rfl]
      rw [show (saveOr order (Order.save now order), false).1 =
        saveOr order (Order.save now order) from rfl]
      rw [save_ok_status now _ _ hsave]
      simp only [Bool.false_eq_true, false_iff]
      tauto
  · rw [if_neg hsucc]
    simp only [Bool.false_eq_true, false_iff]
    tauto

/-- Witness data: the Upbit broker row. -/
def exUpbitBroker : Broker :=
  { code := "UPBIT", name := "Upbit", is_crypto_exchange := true }

/-- Witness data: an Upbit account with credentials and default policy. -/
def exUpbitAccount : Account :=
  { id := 1, broker := exUpbitBroker, account_number := none, api_key := some "k",
    api_secret := some "s", access_token := none, token_expires_at := none,
    buy_enabled := true, sell_enabled := true, investment_limit := none }

/-- Witness data: a MARKET BUY order already FILLED at time 5. -/
def exFilledOrder : Order :=
  { account := 1, symbol := 1, side := OrderSide.BUY, order_type := OrderType.MARKET,
    quantity := 10, price := none, status := OrderStatus.FILLED,
    filled_quantity := 10, average_filled_price := some 100,
    external_order_id := some "u1", filled_at := some 5 }

/-- Witness data: an Upbit payload reporting state 'cancel'. -/
def exCancelData : UpbitData :=
  { state := some "cancel", executed_volume := 10, avg_price := 100, uuid := some "u1" }

/-- Witness data: a successful status query carrying the 'cancel' payload. -/
def exCancelPayload : StatusResult :=
  { success := true, data := some exCancelData }

/-- C2 counterexample: an order that is already FILLED (terminal) is moved to
CANCELLED by a later reconciliation pass whose venue payload reports state
'cancel' — `check_order_status` has no guard on the prior status, so a
terminal status is overwritten. -/
theorem check_order_status_overwrites_filled :
    exFilledOrder.status = OrderStatus.FILLED ∧
      (check_order_status exUpbitAccount exFilledOrder true exCancelPayload 6).1.status =
        OrderStatus.CANCELLED := by
  refine ⟨rfl, ?_⟩
  decide

/-- C2 (amended): `check_order_status` maps the latest venue payload onto the
order with no guard on the current status: on a successful query of an Upbit
account, state 'done' stores FILLED, state 'cancel' stores CANCELLED (also
over a prior FILLED), positive executed volume with any other state stores
PARTIALLY_FILLED (also over a prior FILLED), and anything else leaves the
status unchanged. -/
theorem check_order_status_payload_driven (account : Account) (order : Order)
    (result : StatusResult) (data : UpbitData) (now : Nat)
    (hbroker : account.broker.is_crypto_exchange = true)
    (hname : strContains (pyLower account.broker.name) "upbit" = true)
    (hsuccess : result.success = true)
    (hdata : result.data = some data)
    (hsave : validOrder order) :
    (check_order_status account order true result now).1.status =
      (if data.state = some "done" then OrderStatus.FILLED
       else if data.state = some "cancel" then OrderStatus.CANCELLED
       else if 0 < data.executed_volume then OrderStatus.PARTIALLY_FILLED
       else order.status) := by
  unfold check_order_status
  rw [if_pos rfl]
  exact applyOrderStatus_status account.broker order result data now hbroker hname
    hsuccess hdata hsave

/-- Witness for the amended C2 at the concrete counterexample input: the
payload-driven status of the FILLED order polled with a 'cancel' payload is
CANCELLED. -/
theorem check_order_status_payload_driven_witness :
    (check_order_status exUpbitAccount exFilledOrder true exCancelPayload 6).1.status =
      OrderStatus.CANCELLED := by
  have h := check_order_status_payload_driven exUpbitAccount exFilledOrder
    exCancelPayload exCancelData 6 rfl (by decide) rfl rfl
    (by simp [validOrder, exFilledOrder])
  rw [h]
  decide

/-- C3: the Profit Calculator is triggered by a reconciliation pass exactly
when that pass moves a SELL order into FILLED from a prior status that was
not FILLED; a poll of an already-FILLED order never re-triggers it and a BUY
fill never triggers it. -/
theorem profit_trigger_iff (account : Account) (order : Order)
    (clientGiven : Bool) (result : StatusResult) (now : Nat)
    (hsave : validOrder order) :
    ((check_order_status account order clientGiven result now).2 = true) ↔
      ((check_order_status account order clientGiven result now).1.status =
          OrderStatus.FILLED ∧
        order.status ≠ OrderStatus.FILLED ∧ order.side = OrderSide.SELL) := by
  unfold check_order_status
  by_cases hc : clientGiven = true
  · rw [if_pos hc]
    exact applyOrderStatus_trigger_iff account.broker order result now hsave
  · rw [if_neg hc]
    cases get_broker_client account with
    | error e =>
      simp only [Bool.false_eq_true, false_iff]
      tauto
    | ok c =>
      exact applyOrderStatus_trigger_iff account.broker order result now hsave

/-- Witness data: a submitted SELL order not yet filled. -/
def exPendingSell : Order :=
  { account := 1, symbol := 1, side := OrderSide.SELL, order_type := OrderType.MARKET,
    quantity := 10, price := none, status := OrderStatus.PARTIALLY_FILLED,
    filled_quantity := 0, average_filled_price := none,
    external_order_id := some "u2", filled_at := none }

/-- Witness data: an Upbit payload reporting state 'done' at volume 10,
average price 150. -/
def exDoneData : UpbitData :=
  { state := some "done", executed_volume := 10, avg_price := 150, uuid := some "u2" }

/-- Witness data: a successful status query carrying the 'done' payload. -/
def exDonePayload : StatusResult :=
  { success := true, data := some exDoneData }

/-- Witness for C3 at a concrete fill: polling the submitted SELL with a
'done' payload triggers the profit calculator, and the stored order is
FILLED from a non-FILLED prior status. -/
theorem profit_trigger_iff_witness :
    ((check_order_status exUpbitAccount exPendingSell true exDonePayload 7).2 = true) ↔
      ((check_order_status exUpbitAccount exPendingSell true exDonePayload 7).1.status =
          OrderStatus.FILLED ∧
        exPendingSell.status ≠ OrderStatus.FILLED ∧
        exPendingSell.side = OrderSide.SELL) :=
  profit_trigger_iff exUpbitAccount exPendingSell true exDonePayload 7
    (by simp [validOrder, exPendingSell])

/-! ## Broker clients' order placement (`trading/clients.py`) and the order
dispatcher (`trading/tasks.py` `process_order`/`process_orders`) -/

/-- An outbound broker network request. -/
inductive NetCall where
  | upbitOrderRequest
  | bingxOrderRequest
  | kisTokenRequest
  | kisOrderRequest
  | statusRequest
deriving DecidableEq, Repr

/-- A client's `place_order` return dictionary. -/
structure PlaceResult where
  success : Bool
  order_id : Option String
  error : Option String
deriving DecidableEq, Repr

/-- The external world the clients talk to: each venue endpoint's response
when the corresponding request is made. -/
structure Env where
  kisTokenResp : Option String
  upbitPlace : PlaceResult
  bingxPlace : PlaceResult
  kisPlace : PlaceResult
  status : StatusResult
deriving DecidableEq, Repr

/-- The cached-token test of `KisClient._get_access_token`
(clients.py 494-498): a truthy `access_token` with an unexpired
`token_expires_at`. -/
def tokenCacheValid (account : Account) (now : Nat) : Bool :=
  strTruthy account.access_token &&
    match account.token_expires_at with
    | some e => decide (now < e)
    | none => false

/-- `KisClient._get_access_token` (clients.py 492-532): reuse the cached
token; otherwise POST the OAuth token endpoint (a network call), cache and
return the issued token (expiry now + 23h), or `none` on failure. -/
def kisGetAccessToken (account : Account) (env : Env) (now : Nat) :
    Option String × Account × List NetCall :=
  if tokenCacheValid account now = true then (account.access_token, account, [])
  else
    match env.kisTokenResp with
    | some tok =>
      (some tok,
        { account with access_token := some tok,
                       token_expires_at := some (now + 23 * 3600) },
        [NetCall.kisTokenRequest])
    | none => (none, account, [NetCall.kisTokenRequest])

/-- `KisClient.place_order` (clients.py 534-599): token first (network),
then the order-cash POST (network) — the body carries `ORD_UNPR` "0" when
the order has no price, with no local LIMIT-price validation. -/
def kisPlaceOrder (account : Account) (order : Order) (env : Env) (now : Nat) :
    PlaceResult × Account × List NetCall :=
  match kisGetAccessToken account env now with
  | (none, account', calls) =>
    ({ success := false, order_id := none, error := some "token" }, account', calls)
  | (some _, account', calls) =>
    (env.kisPlace, account', calls ++ [NetCall.kisOrderRequest])

/-- `UpbitClient.place_order` (clients.py 67-105): a LIMIT order with a NULL
price raises `float(None)` before the SDK call (caught, returned as
failure); otherwise one SDK network call whose outcome the venue decides. -/
def upbitPlaceOrder (order : Order) (env : Env) : PlaceResult × List NetCall :=
  if order.order_type = OrderType.LIMIT ∧ order.price = none then
    ({ success := false, order_id := none, error := some "float(None)" }, [])
  else (env.upbitPlace, [NetCall.upbitOrderRequest])

/-- `BingXClient.place_order` (clients.py 391-443): a LIMIT order with a
falsy price is refused locally before the request; otherwise one POST. -/
def bingxPlaceOrder (order : Order) (env : Env) : PlaceResult × List NetCall :=
  if order.order_type = OrderType.LIMIT ∧ (order.price = none ∨ order.price = some 0) then
    ({ success := false, order_id := none, error := some "price required" }, [])
  else (env.bingxPlace, [NetCall.bingxOrderRequest])

/-- `client.place_order(order)` dispatched on the resolved client. -/
def clientPlaceOrder (client : BrokerClient) (account : Account) (order : Order)
    (env : Env) (now : Nat) : PlaceResult × Account × List NetCall :=
  match client with
  | BrokerClient.upbit =>
    match upbitPlaceOrder order env with
    | (r, calls) => (r, account, calls)
  | BrokerClient.bingx =>
    match bingxPlaceOrder order env with
    | (r, calls) => (r, account, calls)
  | BrokerClient.kis => kisPlaceOrder account order env now

/-- `client.get_order_status(order)` dispatched on the resolved client
(clients.py 186-213, 445-472, 601-644): one status query, KIS preceded by
token acquisition whose failure yields a failure result without a query. -/
def clientGetOrderStatus (client : BrokerClient) (account : Account) (env : Env)
    (now : Nat) : StatusResult × Account × List NetCall :=
  match client with
  | BrokerClient.upbit => (env.status, account, [NetCall.statusRequest])
  | BrokerClient.bingx => (env.status, account, [NetCall.statusRequest])
  | BrokerClient.kis =>
    match kisGetAccessToken account env now with
    | (none, account', calls) => ({ success := false, data := none }, account', calls)
    | (some _, account', calls) => (env.status, account', calls ++ [NetCall.statusRequest])

/-- Truthiness of `account.investment_limit` (tasks.py 52): None and 0 are
falsy, so the ceiling check is skipped for them. -/
def limitTruthy (account : Account) : Bool :=
  match account.investment_limit with
  | some l => decide (¬l = 0)
  | none => false

/-- The ceiling test of tasks.py 52-59: a truthy limit, side BUY, and
`quantity * (price or 0)` strictly above the limit. -/
def exceedsLimit (account : Account) (order : Order) : Bool :=
  limitTruthy account && decide (order.side = OrderSide.BUY) &&
    decide (account.investment_limit.getD 0 < order.quantity * order.price.getD 0)

/-- The local trading-policy rejection of tasks.py 38-59: side-specific
enable flag off, or the investment ceiling exceeded. -/
def policyRejected (account : Account) (order : Order) : Bool :=
  (decide (order.side = OrderSide.BUY) && !account.buy_enabled) ||
    (decide (order.side = OrderSide.SELL) && !account.sell_enabled) ||
    exceedsLimit account order

/-- The observable outcome of one `process_order` call. -/
structure ProcResult where
  dbOrder : Order
  account : Account
  escaped : Bool
  getClientCalled : Bool
  calls : List NetCall
  triggered : Bool
deriving DecidableEq, Repr

/-- `process_order` (tasks.py 34-99).  Policy rejection happens before the
`try` block and before any client use; a save that raises there escapes.
Inside the `try`, a `get_broker_client` ValueError and a venue failure both
store REJECTED; on success the order is stored PARTIALLY_FILLED (with the
venue's order id when truthy) and `check_order_status` runs with the same
client.  A save that raises inside the `try` is caught, and the handler's
own rejection save raises again and escapes. -/
def process_order (account : Account) (order : Order) (env : Env) (now : Nat) :
    ProcResult :=
  if policyRejected account order = true then
    match Order.save now { order with status := OrderStatus.REJECTED } with
    | Except.ok o => ⟨o, account, false, false, [], false⟩
    | Except.error _ => ⟨order, account, true, false, [], false⟩
  else
    match get_broker_client account with
    | Except.error _ =>
      match Order.save now { order with status := OrderStatus.REJECTED } with
      | Except.ok o => ⟨o, account, false, true, [], false⟩
      | Except.error _ => ⟨order, account, true, true, [], false⟩
    | Except.ok client =>
      match clientPlaceOrder client account order env now with
      | (res, account', calls) =>
        if res.success = true then
          let order₁ :=
            if strTruthy res.order_id = true then
              { order with external_order_id := res.order_id }
            else order
          match Order.save now { order₁ with status := OrderStatus.PARTIALLY_FILLED } with
          | Except.error _ => ⟨order, account', true, true, calls, false⟩
          | Except.ok o₂ =>
            match clientGetOrderStatus client account' env now with
            | (st, account'', calls₂) =>
              match applyOrderStatus account.broker o₂ st now with
              | (o₃, trig) =>
                ⟨o₃, account'', false, true, calls ++ calls₂, trig⟩
        else
          match Order.save now { order with status := OrderStatus.REJECTED } with
          | Except.ok o => ⟨o, account', false, true, calls, false⟩
          | Except.error _ => ⟨order, account', true, true, calls, false⟩

/-- `process_orders` (tasks.py 14-31): iterate the PENDING orders; an
exception escaping `process_order` is caught by the loop handler, which
stores REJECTED and moves on (its own save raising ends the whole loop —
`none`).  Returns the count of orders processed without exception, with
each order's outcome. -/
def process_orders : List (Account × Order × Env) → Nat →
    Option (Nat × List ProcResult)
  | [], _ => some (0, [])
  | (account, order, env) :: rest, now =>
    if order.status = OrderStatus.PENDING then
      let r := process_order account order env now
      if r.escaped = true then
        match Order.save now { order with status := OrderStatus.REJECTED } with
        | Except.error _ => none
        | Except.ok o =>
          match process_orders rest now with
          | none => none
          | some (n, results) =>
            some (n, { r with dbOrder := o, escaped := false } :: results)
      else
        match process_orders rest now with
        | none => none
        | some (n, results) => some (n + 1, r :: results)
    else process_orders rest now

lemma save_ok_of_valid (now : Nat) (o : Order) (h : validOrder o) :
    Order.save now o = Except.ok
      (if o.status = OrderStatus.FILLED ∧ o.filled_at = none then
        { o with filled_at := some now } else o) := by
  unfold Order.save
  rw [if_neg h]

lemma save_limit_none_error (now : Nat) (o : Order)
    (h1 : o.order_type = OrderType.LIMIT) (h2 : o.price = none) :
    Order.save now o = Except.error () := by
  unfold Order.save
  rw [if_pos ⟨h1, Or.inl h2⟩]

lemma validOrder_set_status (o : Order) (st : OrderStatus) (h : validOrder o) :
    validOrder { o with status := st } := h

lemma validOrder_set_eid (o : Order) (e : Option String) (h : validOrder o) :
    validOrder { o with external_order_id := e } := h

/-- C5: a PENDING order failing the local trading policy — its side disabled
on the account, or a BUY whose value `quantity × (price or 0)` exceeds a
set, nonzero investment ceiling — is stored REJECTED with `get_broker_client`
never called and no network request made. -/
theorem process_order_policy_reject (account : Account) (order : Order)
    (env : Env) (now : Nat)
    (hvalid : validOrder order)
    (hfail : (order.side = OrderSide.BUY ∧ account.buy_enabled = false) ∨
      (order.side = OrderSide.SELL ∧ account.sell_enabled = false) ∨
      (order.side = OrderSide.BUY ∧ ∃ l, account.investment_limit = some l ∧
        l ≠ 0 ∧ l < order.quantity * order.price.getD 0)) :
    (process_order account order env now).dbOrder.status = OrderStatus.REJECTED ∧
      (process_order account order env now).getClientCalled = false ∧
      (process_order account order env now).calls = [] := by
  have hpol : policyRejected account order = true := by
    rcases hfail with ⟨hside, hflag⟩ | ⟨hside, hflag⟩ | ⟨hside, l, hl, hlz, hlt⟩
    · simp [policyRejected, hside, hflag]
    · simp [policyRejected, hside, hflag]
    · simp [policyRejected, exceedsLimit, limitTruthy, hside, hl, hlz, hlt]
  have hP : process_order account order env now =
      ⟨{ order with status := OrderStatus.REJECTED }, account, false, false, [], false⟩ := by
    unfold process_order
    rw [if_pos hpol,
      save_ok_of_valid now _ (validOrder_set_status order OrderStatus.REJECTED hvalid)]
    simp
  rw [hP]
  exact ⟨rfl, rfl, rfl⟩

/-- C9: with `investment_limit` NULL or exactly 0, the ceiling check is
skipped entirely: an enabled BUY order of any size reaches adapter
resolution (`get_broker_client` is called) instead of being rejected for
exceeding the ceiling. -/
theorem process_order_zero_limit_no_ceiling (account : Account) (order : Order)
    (env : Env) (now : Nat)
    (hlim : account.investment_limit = none ∨ account.investment_limit = some 0)
    (hbuy : order.side = OrderSide.BUY)
    (henabled : account.buy_enabled = true) :
    (process_order account order env now).getClientCalled = true := by
  have hpol : ¬policyRejected account order = true := by
    rcases hlim with h | h <;>
      simp [policyRejected, exceedsLimit, limitTruthy, h, hbuy, henabled]
  unfold process_order
  rw [if_neg hpol]
  repeat' split
  all_goals first
  | rfl
  | (simp only []
     repeat' split
     all_goals rfl)

/-- Witness data: the KIS (securities) broker row. -/
def exKisBroker : Broker :=
  { code := "KIS", name := "KoreaInvest", is_crypto_exchange := false }

/-- Witness data: a KIS account with credentials, no cached token, default
policy. -/
def exKisAccount : Account :=
  { id := 2, broker := exKisBroker, account_number := some "1234567890",
    api_key := some "k", api_secret := some "s", access_token := none,
    token_expires_at := none, buy_enabled := true, sell_enabled := true,
    investment_limit := none }

/-- Witness data: a PENDING LIMIT BUY order with no price. -/
def exLimitNoPrice : Order :=
  { account := 2, symbol := 1, side := OrderSide.BUY, order_type := OrderType.LIMIT,
    quantity := 1, price := none, status := OrderStatus.PENDING,
    filled_quantity := 0, average_filled_price := none,
    external_order_id := none, filled_at := none }

/-- Witness data: an environment where every venue endpoint answers with a
failure. -/
def exEnv : Env :=
  { kisTokenResp := none,
    upbitPlace := { success := false, order_id := none, error := some "e" },
    bingxPlace := { success := false, order_id := none, error := some "e" },
    kisPlace := { success := false, order_id := none, error := some "e" },
    status := { success := false, data := none } }

/-- C4 counterexample: a PENDING LIMIT order with no price on a KIS account
is not rejected before adapter use — dispatch resolves the client and
`place_order` performs the OAuth token network request (and the stored
status is still PENDING afterwards, since even the rejection save raises). -/
theorem process_order_limit_no_price_counterexample :
    exLimitNoPrice.order_type = OrderType.LIMIT ∧ exLimitNoPrice.price = none ∧
      exLimitNoPrice.status = OrderStatus.PENDING ∧
      (process_order exKisAccount exLimitNoPrice exEnv 0).getClientCalled = true ∧
      (process_order exKisAccount exLimitNoPrice exEnv 0).calls =
        [NetCall.kisTokenRequest] := by
  refine ⟨rfl, rfl, rfl, ?_, ?_⟩ <;> decide

/-- C4 (amended): `process_order` performs no LIMIT-price check — a PENDING
LIMIT order without a price that passes the trading policy (its value counts
as 0 for the ceiling) proceeds to adapter resolution and `place_order`; for
the KIS adapter with no valid cached token this performs broker network
requests, beginning with OAuth token issuance.  The LIMIT-requires-price
validation lives in `Order.save` (and in the crypto adapters), not in
dispatch. -/
theorem process_order_limit_no_price_reaches_adapter (account : Account)
    (order : Order) (env : Env) (now : Nat)
    (horder : order.order_type = OrderType.LIMIT) (hprice : order.price = none)
    (hpolicy : policyRejected account order = false)
    (hclient : get_broker_client account = Except.ok BrokerClient.kis)
    (hcache : tokenCacheValid account now = false) :
    (process_order account order env now).getClientCalled = true ∧
      NetCall.kisTokenRequest ∈ (process_order account order env now).calls := by
  cases htok : env.kisTokenResp with
  | none =>
    have hplace : clientPlaceOrder BrokerClient.kis account order env now =
        ({ success := false, order_id := none, error := some "token" }, account,
          [NetCall.kisTokenRequest]) := by
      unfold clientPlaceOrder kisPlaceOrder kisGetAccessToken
      rw [if_neg (by simp [hcache]), htok]
    unfold process_order
    rw [if_neg (by simp [hpolicy]), hclient]
    simp only []
    rw [hplace]
    simp only []
    rw [if_neg (by simp), save_limit_none_error now
      { order with status := OrderStatus.REJECTED } horder hprice]
    exact ⟨rfl, by simp⟩
  | some tok =>
    have hplace : clientPlaceOrder BrokerClient.kis account order env now =
        (env.kisPlace,
          { account with access_token := some tok,
                         token_expires_at := some (now + 23 * 3600) },
          [NetCall.kisTokenRequest, NetCall.kisOrderRequest]) := by
      unfold clientPlaceOrder kisPlaceOrder kisGetAccessToken
      rw [if_neg (by simp [hcache]), htok]
      rfl
    unfold process_order
    rw [if_neg (by simp [hpolicy]), hclient]
    simp only [hplace]
    by_cases hsucc : (env.kisPlace).success = true
    · rw [if_pos hsucc]
      by_cases hid : strTruthy (env.kisPlace).order_id = true
      · rw [if_pos hid, save_limit_none_error now
          { order with external_order_id := (env.kisPlace).order_id,
                       status := OrderStatus.PARTIALLY_FILLED } horder hprice]
        exact ⟨rfl, by simp⟩
      · rw [if_neg hid, save_limit_none_error now
          { order with status := OrderStatus.PARTIALLY_FILLED } horder hprice]
        exact ⟨rfl, by simp⟩
    · rw [if_neg hsucc, save_limit_none_error now
        { order with status := OrderStatus.REJECTED } horder hprice]
      exact ⟨rfl, by simp⟩

/-- Witness for the amended C4 at the concrete input: the LIMIT-no-price
order on the KIS account reaches the adapter and an OAuth token request is
traced. -/
theorem process_order_limit_no_price_reaches_adapter_witness :
    (process_order exKisAccount exLimitNoPrice exEnv 0).getClientCalled = true ∧
      NetCall.kisTokenRequest ∈ (process_order exKisAccount exLimitNoPrice exEnv 0).calls :=
  process_order_limit_no_price_reaches_adapter exKisAccount exLimitNoPrice exEnv 0
    rfl rfl (by decide) rfl (by decide)

/-- Witness data: an Upbit account with buying disabled. -/
def exNoBuyAccount : Account := { exUpbitAccount with buy_enabled := false }

/-- Witness data: a PENDING MARKET BUY order. -/
def exPendingBuy : Order :=
  { account := 1, symbol := 1, side := OrderSide.BUY, order_type := OrderType.MARKET,
    quantity := 1, price := none, status := OrderStatus.PENDING,
    filled_quantity := 0, average_filled_price := none,
    external_order_id := none, filled_at := none }

/-- Witness for C5: a BUY order on a buy-disabled account is stored REJECTED
with no adapter resolution and no network call. -/
theorem process_order_policy_reject_witness :
    (process_order exNoBuyAccount exPendingBuy exEnv 0).dbOrder.status =
        OrderStatus.REJECTED ∧
      (process_order exNoBuyAccount exPendingBuy exEnv 0).getClientCalled = false ∧
      (process_order exNoBuyAccount exPendingBuy exEnv 0).calls = [] :=
  process_order_policy_reject exNoBuyAccount exPendingBuy exEnv 0
    (by simp [validOrder, exPendingBuy]) (Or.inl ⟨rfl, rfl⟩)

/-- Witness data: an Upbit account whose investment limit is exactly 0. -/
def exZeroLimitAccount : Account := { exUpbitAccount with investment_limit := some 0 }

/-- Witness data: a PENDING LIMIT BUY of value 10^12. -/
def exHugeBuy : Order :=
  { exPendingBuy with
    order_type := OrderType.LIMIT
    quantity := 1000000
    price := some 1000000 }

/-- Witness for C9: with a zero investment limit, a BUY of value 10^12 still
reaches adapter resolution. -/
theorem process_order_zero_limit_no_ceiling_witness :
    (process_order exZeroLimitAccount exHugeBuy exEnv 0).getClientCalled = true :=
  process_order_zero_limit_no_ceiling exZeroLimitAccount exHugeBuy exEnv 0
    (Or.inr rfl) rfl rfl

lemma process_order_not_escaped (account : Account) (order : Order) (env : Env)
    (now : Nat) (hvalid : validOrder order) :
    (process_order account order env now).escaped = false := by
  have hvr : validOrder { order with status := OrderStatus.REJECTED } := hvalid
  unfold process_order
  split
  · rw [save_ok_of_valid now _ hvr]
  · split
    · rw [save_ok_of_valid now _ hvr]
    · split
      split
      · simp only []
        rename_i client heqc res account' calls heqp hsucc
        by_cases hid : strTruthy res.order_id = true
        · rw [if_pos hid,
            save_ok_of_valid now _
              (validOrder_set_status _ _ (validOrder_set_eid _ _ hvalid))]
        · rw [if_neg hid, save_ok_of_valid now _ (validOrder_set_status _ _ hvalid)]
      · rw [save_ok_of_valid now _ hvr]

lemma process_order_client_error_rejected (account : Account) (order : Order)
    (env : Env) (now : Nat) (hvalid : validOrder order)
    (herr : get_broker_client account = Except.error ()) :
    (process_order account order env now).dbOrder.status = OrderStatus.REJECTED := by
  have hvr : validOrder { order with status := OrderStatus.REJECTED } := hvalid
  unfold process_order
  by_cases hpol : policyRejected account order = true
  · rw [if_pos hpol, save_ok_of_valid now _ hvr]
    simp
  · rw [if_neg hpol, herr, save_ok_of_valid now _ hvr]
    simp

lemma process_orders_eq (batch : List (Account × Order × Env)) (now : Nat)
    (hvalid : ∀ e ∈ batch, validOrder e.2.1) :
    process_orders batch now =
      some ((batch.filter fun e =>
          decide (e.2.1.status = OrderStatus.PENDING)).length,
        (batch.filter fun e => decide (e.2.1.status = OrderStatus.PENDING)).map
          fun e => process_order e.1 e.2.1 e.2.2 now) := by
  induction batch with
  | nil => rfl
  | cons e rest ih =>
    obtain ⟨a, o, v⟩ := e
    have hvo : validOrder o := hvalid _ (List.mem_cons_self _ _)
    have hvrest : ∀ x ∈ rest, validOrder x.2.1 :=
      fun x hx => hvalid x (List.mem_cons_of_mem _ hx)
    by_cases hpend : o.status = OrderStatus.PENDING
    · simp only [process_orders, if_pos hpend]
      rw [show (process_order a o v now).escaped = false from
        process_order_not_escaped a o v now hvo]
      simp only [Bool.false_eq_true, if_false]
      rw [ih hvrest]
      simp [List.filter_cons, hpend]
    · simp only [process_orders, if_neg hpend]
      rw [ih hvrest]
      simp [List.filter_cons, hpend]

/-- C8: over a batch of valid stored orders, dispatch processes every
PENDING order independently: `process_orders` returns normally (no exception
escapes the loop) with one outcome per PENDING order, and an order whose
adapter construction fails (e.g. a missing API secret) is stored REJECTED
while the rest of the batch is still processed. -/
theorem process_orders_batch (batch : List (Account × Order × Env)) (now : Nat)
    (hvalid : ∀ e ∈ batch, validOrder e.2.1) :
    process_orders batch now =
      some ((batch.filter fun e =>
          decide (e.2.1.status = OrderStatus.PENDING)).length,
        (batch.filter fun e => decide (e.2.1.status = OrderStatus.PENDING)).map
          fun e => process_order e.1 e.2.1 e.2.2 now) ∧
      ∀ e ∈ batch, e.2.1.status = OrderStatus.PENDING →
        get_broker_client e.1 = Except.error () →
        (process_order e.1 e.2.1 e.2.2 now).dbOrder.status = OrderStatus.REJECTED :=
  ⟨process_orders_eq batch now hvalid,
    fun e he _ herr =>
      process_order_client_error_rejected e.1 e.2.1 e.2.2 now (hvalid e he) herr⟩

/-- Witness data: an Upbit account missing its API secret: adapter
construction fails. -/
def exNoSecretAccount : Account := { exUpbitAccount with api_secret := none }

/-- Witness data: a two-order batch, the first on the credential-less
account, the second on the healthy one. -/
def exBatch : List (Account × Order × Env) :=
  [(exNoSecretAccount, exPendingBuy, exEnv), (exUpbitAccount, exPendingBuy, exEnv)]

/-- Witness for C8 on the concrete two-order batch. -/
theorem process_orders_batch_witness :
    process_orders exBatch 0 =
      some ((exBatch.filter fun e =>
          decide (e.2.1.status = OrderStatus.PENDING)).length,
        (exBatch.filter fun e => decide (e.2.1.status = OrderStatus.PENDING)).map
          fun e => process_order e.1 e.2.1 e.2.2 0) ∧
      ∀ e ∈ exBatch, e.2.1.status = OrderStatus.PENDING →
        get_broker_client e.1 = Except.error () →
        (process_order e.1 e.2.1 e.2.2 0).dbOrder.status = OrderStatus.REJECTED :=
  process_orders_batch exBatch 0 (by
    intro e he
    simp only [exBatch, List.mem_cons, List.not_mem_nil, or_false] at he
    rcases he with rfl | rfl <;> simp [validOrder, exPendingBuy])

/-! ## Holdings synchronizer (`trading/tasks.py` `update_holdings`, 246-343,
and `Holding.save`, models.py 491-524) -/

/-- One reported position line item of an account snapshot
(an element of `holdings_data`). -/
structure HoldingInfo where
  ticker : String
  name : String
  currency : String
  quantity : ℚ
  current_price : ℚ
  average_price : ℚ
  total_value : ℚ
deriving DecidableEq, Repr

/-- One row of the `Holding` table (models.py 421-524), keyed on
(account, symbol); the symbol foreign key is kept as its unique ticker. -/
structure Holding where
  account : Nat
  ticker : String
  quantity : ℚ
  average_price : ℚ
  current_price : ℚ
  total_value : ℚ
  profit_loss : ℚ
  profit_rate : ℚ
deriving DecidableEq, Repr

/-- `Holding.save` (models.py 491-524): recompute `total_value` from the
prices when one is positive, then the profit fields (zeroed unless quantity
and average price are positive). -/
def Holding.save (h : Holding) : Holding :=
  let h₁ :=
    if 0 < h.quantity then
      if 0 < h.current_price then
        { h with total_value := h.quantity * h.current_price }
      else if 0 < h.average_price then
        { h with total_value := h.quantity * h.average_price }
      else h
    else h
  if 0 < h₁.quantity ∧ 0 < h₁.average_price then
    let cost := h₁.quantity * h₁.average_price
    let value := if 0 < h₁.current_price then h₁.quantity * h₁.current_price else cost
    { h₁ with profit_loss := value - cost,
              profit_rate := if 0 < cost then (value - cost) / cost * 100 else 0 }
  else { h₁ with profit_loss := 0, profit_rate := 0 }

/-- tasks.py 300-304: the effective current price falls back to the average
price when zero. -/
def effectiveCurrentPrice (current_price average_price : ℚ) : ℚ :=
  if current_price = 0 ∧ 0 < average_price then average_price else current_price

/-- tasks.py 306-310: the effective average price falls back to the current
price when zero. -/
def effectiveAveragePrice (current_price average_price : ℚ) : ℚ :=
  if average_price = 0 ∧ 0 < current_price then current_price else average_price

/-- tasks.py 312-317: a zero reported `total_value` is computed from the
effective prices; a nonzero reported one is used as-is. -/
def effectiveTotalValue (info : HoldingInfo) : ℚ :=
  let ecp := effectiveCurrentPrice info.current_price info.average_price
  let eap := effectiveAveragePrice info.current_price info.average_price
  if info.total_value = 0 ∧ 0 < info.quantity then
    if 0 < ecp then info.quantity * ecp
    else if 0 < eap then info.quantity * eap
    else info.total_value
  else info.total_value

/-- The (account, symbol) key of the holdings upsert. -/
def holdingKey (account : Nat) (ticker : String) (h : Holding) : Bool :=
  decide (h.account = account) && decide (h.ticker = ticker)

/-- A reported line item that is processed: a present ticker and a positive
quantity (tasks.py 257-259, 295). -/
def validItem (i : HoldingInfo) : Bool :=
  !(decide (i.ticker = "")) && decide (0 < i.quantity)

/-- The row `Holding.objects.update_or_create` + `Holding.save` store for a
reported item (tasks.py 319-329): quantity and effective prices from the
item, the profit fields recomputed by the save. -/
def expectedHolding (account : Nat) (info : HoldingInfo) : Holding :=
  Holding.save
    { account := account, ticker := info.ticker, quantity := info.quantity,
      average_price := effectiveAveragePrice info.current_price info.average_price,
      current_price := effectiveCurrentPrice info.current_price info.average_price,
      total_value := effectiveTotalValue info,
      profit_loss := 0, profit_rate := 0 }

/-- `Holding.objects.update_or_create(account, symbol, defaults)` followed
by the model save (tasks.py 319-329): overwrite the defaults of the existing
row, or insert a new row. -/
def upsertHolding (table : List Holding) (account : Nat) (info : HoldingInfo) :
    List Holding :=
  let ecp := effectiveCurrentPrice info.current_price info.average_price
  let eap := effectiveAveragePrice info.current_price info.average_price
  let tv := effectiveTotalValue info
  if table.any (holdingKey account info.ticker) then
    table.map fun h =>
      if holdingKey account info.ticker h then
        Holding.save { h with quantity := info.quantity, current_price := ecp,
                              average_price := eap, total_value := tv }
      else h
  else
    table ++ [Holding.save
      { account := account, ticker := info.ticker, quantity := info.quantity,
        average_price := eap, current_price := ecp, total_value := tv,
        profit_loss := 0, profit_rate := 0 }]

/-- The per-item body of the `update_holdings` loop (tasks.py 253-336): skip
a missing ticker, record the ticker and upsert when quantity is positive. -/
def updateStep (account : Nat) (acc : List String × List Holding)
    (info : HoldingInfo) : List String × List Holding :=
  if info.ticker = "" then acc
  else if 0 < info.quantity then
    (info.ticker :: acc.1, upsertHolding acc.2 account info)
  else acc

/-- `update_holdings` (tasks.py 246-343): process every reported item, then
delete the account's holdings whose ticker was not in the snapshot. -/
def update_holdings (table : List Holding) (account : Nat)
    (holdings_data : List HoldingInfo) : List Holding :=
  let result := holdings_data.foldl (updateStep account) ([], table)
  result.2.filter fun h =>
    !(decide (h.account = account)) || result.1.contains h.ticker

/-- Witness data: a reported position with both prices zero but a nonzero
reported total value. -/
def exZeroPriceInfo : HoldingInfo :=
  { ticker := "A", name := "A", currency := "KRW", quantity := 5,
    current_price := 0, average_price := 0, total_value := 7 }

/-- Witness data: the row the code stores for `exZeroPriceInfo`. -/
def exStoredZeroPrice : Holding :=
  { account := 1, ticker := "A", quantity := 5, average_price := 0,
    current_price := 0, total_value := 7, profit_loss := 0, profit_rate := 0 }

/-- C7 counterexample: syncing the snapshot `[exZeroPriceInfo]` stores
total_value 7 (the reported figure), not quantity × effective current price
(= 0) nor quantity × effective average price (= 0) as the claim reads. -/
theorem update_holdings_total_value_counterexample :
    update_holdings [] 1 [exZeroPriceInfo] = [exStoredZeroPrice] ∧
      exStoredZeroPrice.total_value ≠
        exStoredZeroPrice.quantity * effectiveCurrentPrice 0 0 ∧
      exStoredZeroPrice.total_value ≠
        exStoredZeroPrice.quantity * effectiveAveragePrice 0 0 := by
  refine ⟨?_, ?_, ?_⟩
  · decide
  · norm_num [exStoredZeroPrice, effectiveCurrentPrice]
  · norm_num [exStoredZeroPrice, effectiveAveragePrice]

lemma holding_save_account (h : Holding) : (Holding.save h).account = h.account := by
  unfold Holding.save
  simp only []
  split_ifs <;> rfl

lemma holding_save_ticker (h : Holding) : (Holding.save h).ticker = h.ticker := by
  unfold Holding.save
  simp only []
  split_ifs <;> rfl

lemma holding_save_congr (h₁ h₂ : Holding)
    (ha : h₁.account = h₂.account) (ht : h₁.ticker = h₂.ticker)
    (hq : h₁.quantity = h₂.quantity) (hap : h₁.average_price = h₂.average_price)
    (hcp : h₁.current_price = h₂.current_price)
    (htv : h₁.total_value = h₂.total_value) :
    Holding.save h₁ = Holding.save h₂ := by
  cases h₁; cases h₂
  simp only [] at ha ht hq hap hcp htv
  subst ha; subst ht; subst hq; subst hap; subst hcp; subst htv
  unfold Holding.save
  simp only []
  split_ifs <;> rfl

lemma expectedHolding_account (account : Nat) (info : HoldingInfo) :
    (expectedHolding account info).account = account := by
  unfold expectedHolding
  rw [holding_save_account]

lemma expectedHolding_ticker (account : Nat) (info : HoldingInfo) :
    (expectedHolding account info).ticker = info.ticker := by
  unfold expectedHolding
  rw [holding_save_ticker]

lemma upsert_update_eq (h : Holding) (account : Nat) (info : HoldingInfo)
    (hkey : holdingKey account info.ticker h = true) :
    Holding.save { h with
      quantity := info.quantity
      current_price := effectiveCurrentPrice info.current_price info.average_price
      average_price := effectiveAveragePrice info.current_price info.average_price
      total_value := effectiveTotalValue info } = expectedHolding account info := by
  obtain ⟨ha, ht⟩ : h.account = account ∧ h.ticker = info.ticker := by
    simpa [holdingKey] using hkey
  unfold expectedHolding
  exact holding_save_congr _ _ (by simp [ha]) (by simp [ht]) (by simp) (by simp)
    (by simp) (by simp)

lemma upsertHolding_key_all (table : List Holding) (account : Nat)
    (info : HoldingInfo) :
    ∀ h ∈ upsertHolding table account info,
      holdingKey account info.ticker h = true → h = expectedHolding account info := by
  intro h hmem hkey
  unfold upsertHolding at hmem
  by_cases hany : table.any (holdingKey account info.ticker) = true
  · rw [if_pos hany] at hmem
    obtain ⟨x, hx, hfx⟩ := List.mem_map.mp hmem
    by_cases hk : holdingKey account info.ticker x = true
    · rw [if_pos hk] at hfx
      rw [← hfx]
      exact upsert_update_eq x account info hk
    · rw [if_neg hk] at hfx
      subst hfx
      exact absurd hkey hk
  · rw [if_neg hany] at hmem
    rcases List.mem_append.mp hmem with hm | hm
    · exact absurd hkey (by
        intro hc
        exact hany (List.any_eq_true.mpr ⟨h, hm, hc⟩))
    · simp only [List.mem_singleton] at hm
      subst hm
      rfl

lemma upsertHolding_mem (table : List Holding) (account : Nat) (info : HoldingInfo) :
    expectedHolding account info ∈ upsertHolding table account info := by
  unfold upsertHolding
  by_cases hany : table.any (holdingKey account info.ticker) = true
  · rw [if_pos hany]
    obtain ⟨x, hx, hk⟩ := List.any_eq_true.mp hany
    refine List.mem_map.mpr ⟨x, hx, ?_⟩
    rw [if_pos hk]
    exact upsert_update_eq x account info hk
  · rw [if_neg hany]
    refine List.mem_append.mpr (Or.inr ?_)
    simp only [List.mem_singleton]
    rfl

lemma upsertHolding_preserve (table : List Holding) (account : Nat)
    (info : HoldingInfo) (h : Holding) (hmem : h ∈ table)
    (hk : holdingKey account info.ticker h = false) :
    h ∈ upsertHolding table account info := by
  unfold upsertHolding
  by_cases hany : table.any (holdingKey account info.ticker) = true
  · rw [if_pos hany]
    refine List.mem_map.mpr ⟨h, hmem, ?_⟩
    rw [if_neg (by simp [hk])]
  · rw [if_neg hany]
    exact List.mem_append.mpr (Or.inl hmem)

lemma upsertHolding_cases (table : List Holding) (account : Nat)
    (info : HoldingInfo) (h : Holding)
    (hmem : h ∈ upsertHolding table account info) :
    h ∈ table ∨ h = expectedHolding account info := by
  unfold upsertHolding at hmem
  by_cases hany : table.any (holdingKey account info.ticker) = true
  · rw [if_pos hany] at hmem
    obtain ⟨x, hx, hfx⟩ := List.mem_map.mp hmem
    by_cases hk : holdingKey account info.ticker x = true
    · rw [if_pos hk] at hfx
      right
      rw [← hfx]
      exact upsert_update_eq x account info hk
    · rw [if_neg hk] at hfx
      left
      rwa [← hfx]
  · rw [if_neg hany] at hmem
    rcases List.mem_append.mp hmem with hm | hm
    · exact Or.inl hm
    · right
      simp only [List.mem_singleton] at hm
      rw [hm]
      rfl

lemma filter_map_nonacct (table : List Holding) (account : Nat) (info : HoldingInfo) :
    ((table.map fun h =>
        if holdingKey account info.ticker h then
          Holding.save { h with
            quantity := info.quantity
            current_price := effectiveCurrentPrice info.current_price info.average_price
            average_price := effectiveAveragePrice info.current_price info.average_price
            total_value := effectiveTotalValue info }
        else h).filter fun h => !(decide (h.account = account))) =
      table.filter fun h => !(decide (h.account = account)) := by
  induction table with
  | nil => rfl
  | cons x rest ih =>
    simp only [List.map_cons, List.filter_cons]
    by_cases hk : holdingKey account info.ticker x = true
    · have hxa : x.account = account := by
        have hx2 : x.account = account ∧ x.ticker = info.ticker := by
          simpa [holdingKey] using hk
        exact hx2.1
      have haimg : ((if holdingKey account info.ticker x then
          Holding.save { x with
            quantity := info.quantity
            current_price := effectiveCurrentPrice info.current_price info.average_price
            average_price := effectiveAveragePrice info.current_price info.average_price
            total_value := effectiveTotalValue info }
          else x)).account = account := by
        rw [if_pos hk, holding_save_account]
        exact hxa
      rw [show (!(decide (((if holdingKey account info.ticker x then
          Holding.save { x with
            quantity := info.quantity
            current_price := effectiveCurrentPrice info.current_price info.average_price
            average_price := effectiveAveragePrice info.current_price info.average_price
            total_value := effectiveTotalValue info }
          else x)).account = account))) = false from by simp [haimg]]
      rw [show (!(decide (x.account = account))) = false from by simp [hxa]]
      simpa using ih
    · rw [if_neg hk]
      by_cases hxa : x.account = account
      · rw [show (!(decide (x.account = account))) = false from by simp [hxa]]
        simpa using ih
      · rw [show (!(decide (x.account = account))) = true from by simp [hxa]]
        simp only [if_true]
        rw [ih]

lemma upsertHolding_filter_other (table : List Holding) (account : Nat)
    (info : HoldingInfo) :
    ((upsertHolding table account info).filter
        fun h => !(decide (h.account = account))) =
      table.filter fun h => !(decide (h.account = account)) := by
  unfold upsertHolding
  by_cases hany : table.any (holdingKey account info.ticker) = true
  · rw [if_pos hany]
    exact filter_map_nonacct table account info
  · rw [if_neg hany]
    rw [List.filter_append]
    have : (!(decide ((Holding.save
        { account := account, ticker := info.ticker, quantity := info.quantity,
          average_price := effectiveAveragePrice info.current_price info.average_price,
          current_price := effectiveCurrentPrice info.current_price info.average_price,
          total_value := effectiveTotalValue info,
          profit_loss := 0, profit_rate := 0 }).account = account))) = false := by
      simp [holding_save_account]
    simp [this]

/-- The tickers of the processed (valid) line items, in report order. -/
def validTickers (holdings_data : List HoldingInfo) : List String :=
  (holdings_data.filter validItem).map HoldingInfo.ticker

lemma updateStep_valid (account : Nat) (acc : List String × List Holding)
    (info : HoldingInfo) (hval : validItem info = true) :
    updateStep account acc info =
      (info.ticker :: acc.1, upsertHolding acc.2 account info) := by
  obtain ⟨ht, hq⟩ : ¬info.ticker = "" ∧ 0 < info.quantity := by
    simpa [validItem] using hval
  unfold updateStep
  rw [if_neg ht, if_pos hq]

lemma updateStep_invalid (account : Nat) (acc : List String × List Holding)
    (info : HoldingInfo) (hval : validItem info = false) :
    updateStep account acc info = acc := by
  unfold updateStep
  by_cases ht : info.ticker = ""
  · rw [if_pos ht]
  · have hq : ¬0 < info.quantity := by
      intro hq
      rw [show validItem info = true by simp [validItem, ht, hq]] at hval
      cases hval
    rw [if_neg ht, if_neg hq]

lemma fold_tickers (account : Nat) (holdings_data : List HoldingInfo) :
    ∀ (tks : List String) (tbl : List Holding),
      (holdings_data.foldl (updateStep account) (tks, tbl)).1 =
        (validTickers holdings_data).reverse ++ tks := by
  induction holdings_data with
  | nil => intro tks tbl; simp [validTickers]
  | cons i rest ih =>
    intro tks tbl
    by_cases hval : validItem i = true
    · rw [List.foldl_cons, updateStep_valid account _ i hval, ih]
      simp [validTickers, List.filter_cons, hval]
    · rw [List.foldl_cons,
        updateStep_invalid account _ i (Bool.eq_false_iff.mpr hval), ih]
      simp only [validTickers, List.filter_cons]
      rw [show validItem i = false from Bool.eq_false_iff.mpr hval]
      simp

lemma fold_key_stable (account : Nat) (R : Holding) (t : String)
    (holdings_data : List HoldingInfo) :
    ∀ (tks : List String) (tbl : List Holding),
      t ∉ validTickers holdings_data →
      (∀ h ∈ tbl, holdingKey account t h = true → h = R) →
      ∀ h ∈ (holdings_data.foldl (updateStep account) (tks, tbl)).2,
        holdingKey account t h = true → h = R := by
  induction holdings_data with
  | nil => intro tks tbl _ hP h hmem; exact hP h hmem
  | cons i rest ih =>
    intro tks tbl hnot hP h hmem
    by_cases hval : validItem i = true
    · rw [List.foldl_cons, updateStep_valid account _ i hval] at hmem
      have hti : i.ticker ≠ t := by
        intro hcontra
        apply hnot
        simp only [validTickers, List.filter_cons, hval, if_true, List.map_cons]
        exact hcontra ▸ List.mem_cons_self _ _
      have hnot' : t ∉ validTickers rest := by
        intro hc
        apply hnot
        simp only [validTickers, List.filter_cons, hval, if_true, List.map_cons]
        exact List.mem_cons_of_mem _ hc
      refine ih _ _ hnot' ?_ h hmem
      intro x hx hkx
      rcases upsertHolding_cases tbl account i x hx with hx' | hx'
      · exact hP x hx' hkx
      · exfalso
        apply hti
        have : x.ticker = t := by
          have h2 : x.account = account ∧ x.ticker = t := by
            simpa [holdingKey] using hkx
          exact h2.2
        rw [← this, hx', expectedHolding_ticker]
    · rw [List.foldl_cons,
        updateStep_invalid account _ i (Bool.eq_false_iff.mpr hval)] at hmem
      have hnot' : t ∉ validTickers rest := by
        intro hc
        apply hnot
        simp only [validTickers, List.filter_cons,
          Bool.eq_false_iff.mpr hval]
        exact hc
      exact ih tks tbl hnot' hP h hmem

lemma fold_mem_stable (account : Nat) (holdings_data : List HoldingInfo) :
    ∀ (tks : List String) (tbl : List Holding) (h : Holding),
      h ∈ tbl →
      (∀ i ∈ holdings_data, validItem i = true →
        holdingKey account i.ticker h = false) →
      h ∈ (holdings_data.foldl (updateStep account) (tks, tbl)).2 := by
  induction holdings_data with
  | nil => intro tks tbl h hmem _; exact hmem
  | cons i rest ih =>
    intro tks tbl h hmem hnkey
    by_cases hval : validItem i = true
    · rw [List.foldl_cons, updateStep_valid account _ i hval]
      refine ih _ _ h ?_ ?_
      · exact upsertHolding_preserve tbl account i h hmem
          (hnkey i (List.mem_cons_self _ _) hval)
      · intro j hj hvj
        exact hnkey j (List.mem_cons_of_mem _ hj) hvj
    · rw [List.foldl_cons,
        updateStep_invalid account _ i (Bool.eq_false_iff.mpr hval)]
      refine ih _ _ h hmem ?_
      intro j hj hvj
      exact hnkey j (List.mem_cons_of_mem _ hj) hvj

lemma fold_expected_mem (account : Nat) (holdings_data : List HoldingInfo) :
    ∀ (tks : List String) (tbl : List Holding) (i : HoldingInfo),
      i ∈ holdings_data → validItem i = true →
      (validTickers holdings_data).Nodup →
      expectedHolding account i ∈
        (holdings_data.foldl (updateStep account) (tks, tbl)).2 := by
  induction holdings_data with
  | nil => intro tks tbl i hi; cases hi
  | cons j rest ih =>
    intro tks tbl i hi hvi hnodup
    by_cases hvj : validItem j = true
    · rw [List.foldl_cons, updateStep_valid account _ j hvj]
      have hnodup' : (validTickers rest).Nodup ∧ j.ticker ∉ validTickers rest := by
        have : validTickers (j :: rest) = j.ticker :: validTickers rest := by
          simp [validTickers, List.filter_cons, hvj]
        rw [this] at hnodup
        exact ⟨hnodup.of_cons, by
          intro hc
          exact (List.nodup_cons.mp hnodup).1 hc⟩
      rcases List.mem_cons.mp hi with rfl | hi'
      · refine fold_mem_stable account rest _ _ _
          (upsertHolding_mem tbl account i) ?_
        intro k hk hvk
        have hkt : k.ticker ∈ validTickers rest := by
          simp only [validTickers, List.mem_map]
          exact ⟨k, List.mem_filter.mpr ⟨hk, hvk⟩, rfl⟩
        have : i.ticker ≠ k.ticker := by
          intro hc
          exact hnodup'.2 (hc ▸ hkt)
        simp [holdingKey, expectedHolding_ticker, this]
      · exact ih _ _ i hi' hvi hnodup'.1
    · rw [List.foldl_cons,
        updateStep_invalid account _ j (Bool.eq_false_iff.mpr hvj)]
      have hnodup' : (validTickers rest).Nodup := by
        have : validTickers (j :: rest) = validTickers rest := by
          simp [validTickers, List.filter_cons, Bool.eq_false_iff.mpr hvj]
        rwa [this] at hnodup
      rcases List.mem_cons.mp hi with rfl | hi'
      · rw [hvi] at hvj; cases hvj rfl
      · exact ih _ _ i hi' hvi hnodup'

lemma fold_cases (account : Nat) (holdings_data : List HoldingInfo) :
    ∀ (tks : List String) (tbl : List Holding) (h : Holding),
      h ∈ (holdings_data.foldl (updateStep account) (tks, tbl)).2 →
      h ∈ tbl ∨ ∃ i ∈ holdings_data.filter validItem,
        h = expectedHolding account i := by
  induction holdings_data with
  | nil => intro tks tbl h hmem; exact Or.inl hmem
  | cons j rest ih =>
    intro tks tbl h hmem
    by_cases hvj : validItem j = true
    · rw [List.foldl_cons, updateStep_valid account _ j hvj] at hmem
      rcases ih _ _ h hmem with hm | ⟨i, hi, hie⟩
      · rcases upsertHolding_cases tbl account j h hm with hm' | hm'
        · exact Or.inl hm'
        · exact Or.inr ⟨j, by simp [List.filter_cons, hvj], hm'⟩
      · exact Or.inr ⟨i, by
          simp only [List.filter_cons, hvj, if_true]
          exact List.mem_cons_of_mem _ hi, hie⟩
    · rw [List.foldl_cons,
        updateStep_invalid account _ j (Bool.eq_false_iff.mpr hvj)] at hmem
      rcases ih _ _ h hmem with hm | ⟨i, hi, hie⟩
      · exact Or.inl hm
      · exact Or.inr ⟨i, by
          simp only [List.filter_cons, Bool.eq_false_iff.mpr hvj]
          exact hi, hie⟩

lemma fold_filter_other (account : Nat) (holdings_data : List HoldingInfo) :
    ∀ (tks : List String) (tbl : List Holding),
      ((holdings_data.foldl (updateStep account) (tks, tbl)).2.filter
          fun h => !(decide (h.account = account))) =
        tbl.filter fun h => !(decide (h.account = account)) := by
  induction holdings_data with
  | nil => intro tks tbl; rfl
  | cons j rest ih =>
    intro tks tbl
    by_cases hvj : validItem j = true
    · rw [List.foldl_cons, updateStep_valid account _ j hvj, ih]
      exact upsertHolding_filter_other tbl account j
    · rw [List.foldl_cons,
        updateStep_invalid account _ j (Bool.eq_false_iff.mpr hvj), ih]

lemma fold_key_after (account : Nat) (holdings_data : List HoldingInfo) :
    ∀ (tks : List String) (tbl : List Holding) (i : HoldingInfo),
      i ∈ holdings_data → validItem i = true →
      (validTickers holdings_data).Nodup →
      ∀ h ∈ (holdings_data.foldl (updateStep account) (tks, tbl)).2,
        holdingKey account i.ticker h = true → h = expectedHolding account i := by
  induction holdings_data with
  | nil => intro tks tbl i hi; cases hi
  | cons j rest ih =>
    intro tks tbl i hi hvi hnodup h hmem hkey
    by_cases hvj : validItem j = true
    · rw [List.foldl_cons, updateStep_valid account _ j hvj] at hmem
      have hsplit : validTickers (j :: rest) = j.ticker :: validTickers rest := by
        simp [validTickers, List.filter_cons, hvj]
      rw [hsplit] at hnodup
      rcases List.mem_cons.mp hi with rfl | hi'
      · exact fold_key_stable account (expectedHolding account i) i.ticker rest
          _ _ (List.nodup_cons.mp hnodup).1
          (upsertHolding_key_all tbl account i) h hmem hkey
      · exact ih _ _ i hi' hvi (List.nodup_cons.mp hnodup).2 h hmem hkey
    · rw [List.foldl_cons,
        updateStep_invalid account _ j (Bool.eq_false_iff.mpr hvj)] at hmem
      have hsplit : validTickers (j :: rest) = validTickers rest := by
        simp [validTickers, List.filter_cons, Bool.eq_false_iff.mpr hvj]
      rw [hsplit] at hnodup
      rcases List.mem_cons.mp hi with rfl | hi'
      · rw [hvi] at hvj; cases hvj rfl
      · exact ih _ _ i hi' hvi hnodup h hmem hkey

/-- C7 (amended): after `update_holdings`, the account's stored holdings are
exactly the reported line items with a ticker and positive quantity — each
stored with the effective current and average price (each falling back to
the other when zero) and with `total_value` recomputed by the save from the
effective prices when one is positive, the reported total_value being kept
as-is only when both effective prices are zero; every other holding of the
account is deleted, and other accounts' rows are untouched. -/
theorem update_holdings_sync (table : List Holding) (account : Nat)
    (holdings_data : List HoldingInfo)
    (hnodup : (validTickers holdings_data).Nodup) :
    (∀ h ∈ update_holdings table account holdings_data, h.account = account →
      ∃ i ∈ holdings_data.filter validItem, h = expectedHolding account i) ∧
    (∀ i ∈ holdings_data.filter validItem,
      expectedHolding account i ∈ update_holdings table account holdings_data) ∧
    ((update_holdings table account holdings_data).filter
        (fun h => !(decide (h.account = account))) =
      table.filter (fun h => !(decide (h.account = account)))) := by
  refine ⟨?_, ?_, ?_⟩
  · intro h hmem hacct
    unfold update_holdings at hmem
    obtain ⟨hmem2, hkeep⟩ := List.mem_filter.mp hmem
    have hticker : h.ticker ∈ validTickers holdings_data := by
      rcases Bool.or_eq_true_iff.mp hkeep with hk | hk
      · exact absurd hacct (by simpa using hk)
      · have := List.elem_iff.mp hk
        rw [fold_tickers account holdings_data [] table] at this
        simpa using this
    obtain ⟨i, hi, hit⟩ : ∃ i ∈ holdings_data.filter validItem,
        HoldingInfo.ticker i = h.ticker := by
      simpa [validTickers, List.mem_map] using hticker
    refine ⟨i, hi, ?_⟩
    have hval : validItem i = true := (List.mem_filter.mp hi).2
    have hidata : i ∈ holdings_data := (List.mem_filter.mp hi).1
    exact fold_key_after account holdings_data [] table i hidata hval hnodup
      h hmem2 (by simp [holdingKey, hacct, hit])
  · intro i hi
    have hval : validItem i = true := (List.mem_filter.mp hi).2
    have hidata : i ∈ holdings_data := (List.mem_filter.mp hi).1
    unfold update_holdings
    refine List.mem_filter.mpr
      ⟨fold_expected_mem account holdings_data [] table i hidata hval hnodup, ?_⟩
    rw [Bool.or_eq_true_iff]
    right
    rw [show ((holdings_data.foldl (updateStep account) ([], table)).1.contains
        (expectedHolding account i).ticker) = true ↔
        (expectedHolding account i).ticker ∈
          (holdings_data.foldl (updateStep account) ([], table)).1 from
      List.elem_iff, fold_tickers account holdings_data [] table,
      expectedHolding_ticker]
    refine List.mem_append.mpr (Or.inl (List.mem_reverse.mpr ?_))
    simp only [validTickers, List.mem_map]
    exact ⟨i, hi, rfl⟩
  · unfold update_holdings
    rw [List.filter_filter]
    rw [List.filter_congr (fun h _ => ?_), fold_filter_other account holdings_data [] table]
    by_cases hacc : h.account = account <;> simp [hacc]

/-- Witness data: the specification's fallback example — a reported position
with current price 0 and average price 50. -/
def exFallbackInfo : HoldingInfo :=
  { ticker := "B", name := "B", currency := "KRW", quantity := 3,
    current_price := 0, average_price := 50, total_value := 0 }

/-- Witness data: a pre-existing holding of the account whose ticker is not
in the snapshot. -/
def exOldHolding : Holding :=
  { account := 1, ticker := "OLD", quantity := 2, average_price := 10,
    current_price := 10, total_value := 20, profit_loss := 0, profit_rate := 0 }

/-- Witness data: another account's holding. -/
def exOtherHolding : Holding :=
  { account := 9, ticker := "X", quantity := 4, average_price := 5,
    current_price := 5, total_value := 20, profit_loss := 0, profit_rate := 0 }

/-- Witness data: the holdings table before the sync. -/
def exHoldTable : List Holding := [exOldHolding, exOtherHolding]

/-- Witness for the amended C7: syncing the one-item snapshot leaves account
1 holding exactly the reported item — stored with the fallback applied,
current price 50 and total value 3 × 50 = 150 — while the stale "OLD" row is
deleted and account 9's row survives. -/
theorem update_holdings_sync_witness :
    (∀ h ∈ update_holdings exHoldTable 1 [exFallbackInfo], h.account = 1 →
      ∃ i ∈ [exFallbackInfo].filter validItem, h = expectedHolding 1 i) ∧
    (∀ i ∈ [exFallbackInfo].filter validItem,
      expectedHolding 1 i ∈ update_holdings exHoldTable 1 [exFallbackInfo]) ∧
    ((update_holdings exHoldTable 1 [exFallbackInfo]).filter
        (fun h => !(decide (h.account = 1))) =
      exHoldTable.filter (fun h => !(decide (h.account = 1)))) ∧
    expectedHolding 1 exFallbackInfo =
      { account := 1, ticker := "B", quantity := 3, average_price := 50,
        current_price := 50, total_value := 150, profit_loss := 0,
        profit_rate := 0 } := by
  have h := update_holdings_sync exHoldTable 1 [exFallbackInfo] (by decide)
  refine ⟨h.1, h.2.1, h.2.2, ?_⟩
  norm_num [expectedHolding, Holding.save, effectiveCurrentPrice,
    effectiveAveragePrice, effectiveTotalValue, exFallbackInfo]

/-- Witness for C6: rerunning the daily upsert for (account 1, date 0) over
the unchanged orders leaves the stored single row untouched. -/
theorem update_daily_realized_profit_idempotent_witness :
    update_daily_realized_profit exDb [exDailyRow] 1 0 = some [exDailyRow] ∧
      countKey [exDailyRow] 1 0 = 1 :=
  update_daily_realized_profit_idempotent exDb [] 1 0 [exDailyRow]
    (by simp [countKey])
    (by
      norm_num [update_daily_realized_profit, calculate_daily_realized_profit,
        sellOrdersOn, dailyTotals, exDb, exSell, exBuy1, exBuy2, dayStart,
        calculate_realized_profit_for_order, buyOrdersBefore, List.insertionSort,
        List.orderedInsert, fifoWalk, upsertDailyProfit, dailyKey, exDailyRow]
      simp
      norm_num)

end AutoTrade
